import Mathlib

/-!
Verification of the 2048 grid engine in `2048_GAME.py` (class `Game2048`).

The grid is a 4×4 matrix of natural numbers (`numpy` int entries are
non-negative throughout the game), embedded as `List (List Nat)`.  The
stateful methods of the class are embedded as pure functions: methods that
mutate `self.game_grid` and `self.score` return the new grid together with
the score delta they add, and the two calls to `random.choice` inside
`add_random_tile` are modelled by two extra parameters (an index choosing
the empty cell, and the value placed there).
-/

namespace Game2048

/-- A game grid: the 4×4 matrix `self.game_grid`. -/
abbrev Grid := List (List Nat)

/-- Reading `self.game_grid[i][j]`. -/
def cell (g : Grid) (i j : Nat) : Nat := (g.getD i []).getD j 0

/-- Writing `self.game_grid[i][j] = v`. -/
def setCell (g : Grid) (i j v : Nat) : Grid := g.set i ((g.getD i []).set j v)

/-- The list comprehension in `add_random_tile`:
`[(i, j) for i in range(4) for j in range(4) if self.game_grid[i][j] == 0]`. -/
def empty_cells (g : Grid) : List (Nat × Nat) :=
  (List.range 4).flatMap fun i =>
    ((List.range 4).filter fun j => cell g i j == 0).map fun j => (i, j)

/-- `add_random_tile`: if there is an empty cell, place `v` at a randomly
chosen empty cell, else do nothing.  The choice made by
`random.choice(empty_cells)` is modelled by the index parameter `k`
(taken modulo the number of empty cells, so every choice is representable);
the value chosen by `random.choice([2, 4])` is the parameter `v`. -/
def add_random_tile (g : Grid) (k v : Nat) : Grid :=
  let ec := empty_cells g
  if ec.isEmpty then g
  else
    let c := ec.getD (k % ec.length) (0, 0)
    setCell g c.1 c.2 v

/-- The body of the loop `for j in range(len(row) - 1)` inside `move`:
if `row[j] == row[j + 1]` then `row[j] *= 2`, `self.score += row[j]`,
`row[j + 1] = 0`.  The state is the pair (current row, score so far). -/
def combineStep (p : List Nat × Nat) (j : Nat) : List Nat × Nat :=
  if p.1.getD j 0 = p.1.getD (j + 1) 0 then
    let r1 := p.1.set j (2 * p.1.getD j 0)
    (r1.set (j + 1) 0, p.2 + r1.getD j 0)
  else p

/-- The merge loop of `move`: `for j in range(len(row) - 1): ...`. -/
def combineLoop (row : List Nat) (score : Nat) : List Nat × Nat :=
  (List.range (row.length - 1)).foldl combineStep (row, score)

/-- One row of `move`: remove zeros, run the merge loop, remove the zeros
created by merging, and write the result into a zero row of the same
length (`new_matrix[i, :len(row)] = row`).  Returns the new row together
with the score this row adds to `self.score`. -/
def moveRow (row : List Nat) : List Nat × Nat :=
  let r := row.filter fun x => x != 0
  let p := combineLoop r 0
  let r2 := p.1.filter fun x => x != 0
  (r2 ++ List.replicate (row.length - r2.length) 0, p.2)

/-- `move(matrix)`: apply `moveRow` to each of the rows; the score delta is
the sum of the per-row deltas added to `self.score` during the loop. -/
def move (m : Grid) : Grid × Nat :=
  (m.map fun r => (moveRow r).1, (m.map fun r => (moveRow r).2).sum)

/-- `np.fliplr`: reverse every row. -/
def fliplr (g : Grid) : Grid := g.map List.reverse

/-- `np.rot90(grid, 1)` (one 90° counter-clockwise rotation), written out
for the 4×4 grids this game manipulates; any other shape (unreachable in
the game) is returned unchanged.  Row `i` of the result is column `3 - i`
of the input read top to bottom. -/
def rot90 : Grid → Grid
  | [[a, b, c, d], [e, f, g, h], [i, j, k, l], [m, n, o, p]] =>
    [[d, h, l, p], [c, g, k, o], [b, f, j, n], [a, e, i, m]]
  | g => g

/-- `rotate_grid(grid, k)`, i.e. `np.rot90(grid, k)`. -/
def rotate_grid (g : Grid) (k : Nat) : Grid := rot90^[k] g

/-- The loop `for _ in range(n)` shared by the four direction handlers:
each iteration computes `new_grid = self.move(self.game_grid)`, sets
`moved = True` if `new_grid` differs from the current grid
(`np.array_equal` is cell-by-cell comparison), and stores `new_grid`.
Returns (final grid, total score delta, moved). -/
def movePasses : Nat → Grid → Grid × Nat × Bool
  | 0, g => (g, 0, false)
  | n + 1, g =>
    let p := move g
    let changed := decide (p.1 ≠ g)
    let rest := movePasses n p.1
    (rest.1, p.2 + rest.2.1, changed || rest.2.2)

/-- `move_left` (before the conditional `after_move` call): three passes of
`move` on the grid as is. -/
def move_left (g : Grid) : Grid × Nat × Bool := movePasses 3 g

/-- `move_up`: rotate by 90°, three passes of `move`, rotate back by 270°. -/
def move_up (g : Grid) : Grid × Nat × Bool :=
  let p := movePasses 3 (rotate_grid g 1)
  (rotate_grid p.1 3, p.2)

/-- `move_down`: rotate by 270°, three passes of `move`, rotate back by 90°. -/
def move_down (g : Grid) : Grid × Nat × Bool :=
  let p := movePasses 3 (rotate_grid g 3)
  (rotate_grid p.1 1, p.2)

/-- `move_right`: flip horizontally, three passes of `move`, flip back. -/
def move_right (g : Grid) : Grid × Nat × Bool :=
  let p := movePasses 3 (fliplr g)
  (fliplr p.1, p.2)

/-- `can_move`: true iff some cell is 0, or some horizontally adjacent pair
is equal (`col < 3 and grid[row][col] == grid[row][col+1]`), or some
vertically adjacent pair is equal. -/
def can_move (g : Grid) : Bool :=
  (List.range 4).any fun row => (List.range 4).any fun col =>
    cell g row col == 0
    || (decide (col < 3) && (cell g row col == cell g row (col + 1)))
    || (decide (row < 3) && (cell g row col == cell g (row + 1) col))

/-- `after_move`: add a random tile, then if `can_move` fails run
`game_over`, which sets `self.running = False`.  The GUI updates are out
of scope; the engine state it touches is (grid, running). -/
def after_move (g : Grid) (running : Bool) (k v : Nat) : Grid × Bool :=
  let g2 := add_random_tile g k v
  (g2, running && can_move g2)

/-- The full `move_left` key handler: triple pass, score update, and the
conditional `after_move`.  State is (grid, score, running). -/
def move_left_event (g : Grid) (score : Nat) (running : Bool) (k v : Nat) :
    Grid × Nat × Bool :=
  let p := move_left g
  if p.2.2 then
    let q := after_move p.1 running k v
    (q.1, score + p.2.1, q.2)
  else (p.1, score + p.2.1, running)

/-- The full `move_up` key handler. -/
def move_up_event (g : Grid) (score : Nat) (running : Bool) (k v : Nat) :
    Grid × Nat × Bool :=
  let p := move_up g
  if p.2.2 then
    let q := after_move p.1 running k v
    (q.1, score + p.2.1, q.2)
  else (p.1, score + p.2.1, running)

/-- The full `move_down` key handler. -/
def move_down_event (g : Grid) (score : Nat) (running : Bool) (k v : Nat) :
    Grid × Nat × Bool :=
  let p := move_down g
  if p.2.2 then
    let q := after_move p.1 running k v
    (q.1, score + p.2.1, q.2)
  else (p.1, score + p.2.1, running)

/-- The full `move_right` key handler. -/
def move_right_event (g : Grid) (score : Nat) (running : Bool) (k v : Nat) :
    Grid × Nat × Bool :=
  let p := move_right g
  if p.2.2 then
    let q := after_move p.1 running k v
    (q.1, score + p.2.1, q.2)
  else (p.1, score + p.2.1, running)

/-- The grid built by `__init__`: `np.zeros((4, 4))` followed by two calls
to `add_random_tile` (random choices modelled by the four parameters). -/
def init_grid (k1 v1 k2 v2 : Nat) : Grid :=
  add_random_tile
    (add_random_tile (List.replicate 4 (List.replicate 4 0)) k1 v1) k2 v2

/-! ## Specification-side definitions

These transcribe the natural-language spec and are compared against the
definitions embedded from the source above. -/

/-- The spec's compact-left merge scan, transcribed from §4.1: scan the
(zero-free) values left to right; whenever two adjacent values are equal,
merge them into the left cell (doubled value), zero out the right cell,
add the doubled value to the score, and do not let the merged cell merge
again in the same pass.  Returns the scanned list (with the zeros written
by merging still in place) and the score delta. -/
def mergeScanAux (a : Nat) : List Nat → List Nat × Nat
  | [] => ([a], 0)
  | b :: rest =>
    if a = b then
      let p :=
        match rest with
        | [] => ([], 0)
        | c :: rest2 => mergeScanAux c rest2
      (2 * a :: 0 :: p.1, 2 * a + p.2)
    else
      let p := mergeScanAux b rest
      (a :: p.1, p.2)

/-- The spec's merge scan, packaged over a whole list. -/
def mergeScanSpec : List Nat → List Nat × Nat
  | [] => ([], 0)
  | a :: rest => mergeScanAux a rest

/-- The spec's compact-left primitive for one row: remove zeros preserving
order, run the merge scan, re-compact zeros after merging, and pad the
remainder of the row with zeros. -/
def moveRowSpec (row : List Nat) : List Nat × Nat :=
  let r := row.filter fun x => x != 0
  let p := mergeScanSpec r
  let r2 := p.1.filter fun x => x != 0
  (r2 ++ List.replicate (row.length - r2.length) 0, p.2)

/-- The spec's compact-left primitive applied independently to each row. -/
def moveSpec (m : Grid) : Grid × Nat :=
  (m.map fun r => (moveRowSpec r).1, (m.map fun r => (moveRowSpec r).2).sum)

/-- The sum of the values of all tiles newly created by merges in one
compact-left pass over the grid (each merge creates one tile holding the
doubled value). -/
def specMergedTotal (g : Grid) : Nat :=
  (g.map fun r => (mergeScanSpec (r.filter fun x => x != 0)).2).sum

/-- Well-formed grid: exactly 4 rows of 4 cells. -/
def WF (g : Grid) : Prop := g.length = 4 ∧ ∀ r ∈ g, r.length = 4

instance decidableWF (g : Grid) : Decidable (WF g) :=
  inferInstanceAs (Decidable (g.length = 4 ∧ ∀ r ∈ g, r.length = 4))

/-- The spec's `Over` state: every cell non-zero and no two horizontally
or vertically adjacent cells equal. -/
def OverSpec (g : Grid) : Prop :=
  (∀ i, i < 4 → ∀ j, j < 4 → cell g i j ≠ 0) ∧
  (∀ i, i < 4 → ∀ j, j < 3 → cell g i j ≠ cell g i (j + 1)) ∧
  (∀ i, i < 3 → ∀ j, j < 4 → cell g i j ≠ cell g (i + 1) j)

/-- The spec's data-model invariant: every non-zero cell is a power of two. -/
def PowTwoInv (g : Grid) : Prop :=
  ∀ r ∈ g, ∀ x ∈ r, x ≠ 0 → ∃ n, x = 2 ^ n

/-- Number of occupied (non-zero) cells of the grid. -/
def occupiedCount (g : Grid) : Nat :=
  (g.map fun r => (r.filter fun x => x != 0).length).sum

/-! ## Rewrite lemmas for the spec merge scan -/

lemma mergeScanSpec_nil : mergeScanSpec [] = ([], 0) := rfl

lemma mergeScanSpec_single (a : Nat) : mergeScanSpec [a] = ([a], 0) := rfl

lemma mergeScanSpec_cons_cons (a b : Nat) (rest : List Nat) :
    mergeScanSpec (a :: b :: rest) =
      if a = b then
        (2 * a :: 0 :: (mergeScanSpec rest).1, 2 * a + (mergeScanSpec rest).2)
      else
        (a :: (mergeScanSpec (b :: rest)).1, (mergeScanSpec (b :: rest)).2) := by
  by_cases h : a = b <;> cases rest <;> simp [mergeScanSpec, mergeScanAux, h]

lemma mergeScanSpec_zero_cons (T : List Nat) (h : ∀ x ∈ T, x ≠ 0) :
    mergeScanSpec (0 :: T) = (0 :: (mergeScanSpec T).1, (mergeScanSpec T).2) := by
  cases T with
  | nil => rfl
  | cons c T2 =>
    have hc : c ≠ 0 := h c (by simp)
    rw [mergeScanSpec_cons_cons, if_neg (by omega)]

/-! ## Positional list helpers

Used to track the in-place updates `row[j] *= 2` and `row[j + 1] = 0`
performed by the merge loop. -/

lemma append_cons_eq {α : Type} (P : List α) (a : α) (T : List α) :
    P ++ a :: T = (P ++ [a]) ++ T := by simp

lemma getD_at_len (P : List Nat) (a : Nat) (T : List Nat) :
    (P ++ a :: T).getD P.length 0 = a := by
  induction P with
  | nil => rfl
  | cons x P ih => simpa using ih

lemma getD_at_len1 (P : List Nat) (x y : Nat) (T : List Nat) :
    (P ++ x :: y :: T).getD (P.length + 1) 0 = y := by
  induction P with
  | nil => rfl
  | cons z P ih => simpa using ih

lemma set_at_len {α : Type} (P : List α) (a v : α) (T : List α) :
    (P ++ a :: T).set P.length v = P ++ v :: T := by
  induction P with
  | nil => rfl
  | cons x P ih => simpa using ih

lemma set_at_len1 {α : Type} (P : List α) (x y v : α) (T : List α) :
    (P ++ x :: y :: T).set (P.length + 1) v = P ++ x :: v :: T := by
  induction P with
  | nil => rfl
  | cons z P ih => simpa using ih

lemma take_at_len {α : Type} (P T : List α) : (P ++ T).take P.length = P := by
  induction P with
  | nil => rfl
  | cons x P ih => simpa using ih

lemma take_at_len1 {α : Type} (P : List α) (x : α) (T : List α) :
    (P ++ x :: T).take (P.length + 1) = P ++ [x] := by
  induction P with
  | nil => rfl
  | cons z P ih => simpa using ih

lemma drop_at_len {α : Type} (P T : List α) : (P ++ T).drop P.length = T := by
  induction P with
  | nil => rfl
  | cons x P ih => simpa using ih

lemma drop_at_len1 {α : Type} (P : List α) (x : α) (T : List α) :
    (P ++ x :: T).drop (P.length + 1) = T := by
  induction P with
  | nil => rfl
  | cons z P ih => simpa using ih

lemma drop_at_len2 {α : Type} (P : List α) (x y : α) (T : List α) :
    (P ++ x :: y :: T).drop (P.length + 1 + 1) = T := by
  induction P with
  | nil => rfl
  | cons z P ih => simpa using ih

/-! ## The merge loop of `move` agrees with the spec's merge scan -/

/-- Invariant of the loop `for j in range(len(row) - 1)`: with `k`
iterations left at index `j`, and no zeros strictly beyond index `j`, the
loop computes the spec's merge scan of the suffix starting at `j`. -/
lemma combine_fold_eq :
    ∀ (k : Nat) (row : List Nat) (j score : Nat),
      row.length = j + 1 + k →
      (∀ x ∈ row.drop (j + 1), x ≠ 0) →
      (List.range' j k).foldl combineStep (row, score) =
        (row.take j ++ (mergeScanSpec (row.drop j)).1,
         score + (mergeScanSpec (row.drop j)).2) := by
  intro k
  induction k with
  | zero =>
    intro row j score hlen _
    have hd : (row.drop j).length = 1 := by simp; omega
    obtain ⟨a, ha⟩ := List.length_eq_one.mp hd
    have h2 : row.take j ++ [a] = row := by
      conv_rhs => rw [← List.take_append_drop j row]
      rw [ha]
    simp [List.range', ha, mergeScanSpec, mergeScanAux, h2]
  | succ k ih =>
    intro row j score hlen hnz
    obtain ⟨a, T1, hd⟩ : ∃ a T1, row.drop j = a :: T1 := by
      cases hcase : row.drop j with
      | nil =>
        exfalso
        have := congrArg List.length hcase
        simp at this; omega
      | cons a T1 => exact ⟨a, T1, rfl⟩
    obtain ⟨b, T, hT⟩ : ∃ b T, T1 = b :: T := by
      cases hcase : T1 with
      | nil =>
        exfalso
        have := congrArg List.length hd
        rw [hcase] at this
        simp at this; omega
      | cons b T => exact ⟨b, T, rfl⟩
    subst hT
    obtain ⟨P, hPeq, hPlen⟩ : ∃ P, row = P ++ a :: b :: T ∧ P.length = j := by
      refine ⟨row.take j, ?_, ?_⟩
      · conv_lhs => rw [← List.take_append_drop j row]
        rw [hd]
      · simp; omega
    subst hPeq
    subst hPlen
    have hTlen : T.length = k := by simp at hlen; omega
    have hTnz : ∀ x ∈ T, x ≠ 0 := by
      intro x hx
      apply hnz
      rw [drop_at_len1]
      exact List.mem_cons_of_mem b hx
    have hrange : List.range' P.length (k + 1) = P.length :: List.range' (P.length + 1) k :=
      rfl
    rw [hrange, List.foldl_cons, take_at_len, drop_at_len, mergeScanSpec_cons_cons]
    by_cases hab : a = b
    · -- row[j] == row[j+1]: merge, zero the right cell, continue at j+1
      have hcond : (P ++ a :: b :: T).getD P.length 0
          = (P ++ a :: b :: T).getD (P.length + 1) 0 := by
        rw [getD_at_len, getD_at_len1]; exact hab
      have hstep : combineStep (P ++ a :: b :: T, score) P.length
          = (P ++ 2 * a :: 0 :: T, score + 2 * a) := by
        unfold combineStep
        rw [if_pos hcond]
        simp only [getD_at_len, set_at_len, set_at_len1]
      rw [hstep,
        ih (P ++ 2 * a :: 0 :: T) (P.length + 1) (score + 2 * a) (by simp; omega)
          (by rw [drop_at_len2]; exact hTnz),
        take_at_len1, drop_at_len1, mergeScanSpec_zero_cons T hTnz, if_pos hab]
      simp [List.append_assoc, Nat.add_assoc]
    · -- row[j] != row[j+1]: no change, continue at j+1
      have hcond : ¬ ((P ++ a :: b :: T).getD P.length 0
          = (P ++ a :: b :: T).getD (P.length + 1) 0) := by
        rw [getD_at_len, getD_at_len1]; exact hab
      have hstep : combineStep (P ++ a :: b :: T, score) P.length
          = (P ++ a :: b :: T, score) := by
        unfold combineStep
        rw [if_neg hcond]
      rw [hstep,
        ih (P ++ a :: b :: T) (P.length + 1) score (by simp; omega)
          (by rw [drop_at_len2]; exact hTnz),
        take_at_len1, drop_at_len1, if_neg hab]
      simp [List.append_assoc]
/-- The merge loop of `move` computes the spec's merge scan on any
zero-free row. -/
lemma combineLoop_eq_mergeScan (row : List Nat) (score : Nat)
    (h : ∀ x ∈ row, x ≠ 0) :
    combineLoop row score = ((mergeScanSpec row).1, score + (mergeScanSpec row).2) := by
  unfold combineLoop
  cases hl : row.length with
  | zero =>
    have hrow : row = [] := List.length_eq_zero.mp hl
    subst hrow
    simp [mergeScanSpec]
  | succ n =>
    rw [List.range_eq_range']
    have hb := combine_fold_eq n row 0 score (by omega)
      (fun x hx => h x (List.mem_of_mem_drop hx))
    simpa using hb

/-- The compact-left primitive of the source agrees with the spec's
description of it, row by row. -/
lemma moveRow_eq_spec (row : List Nat) : moveRow row = moveRowSpec row := by
  have hnz : ∀ x ∈ row.filter (fun x => x != 0), x ≠ 0 := by
    intro x hx
    have := List.mem_filter.mp hx
    simpa using this.2
  simp only [moveRow, moveRowSpec]
  rw [combineLoop_eq_mergeScan _ 0 hnz]
  simp

/-! ## Structure of the merge scan result -/

/-- Zero-free content of a row. -/
def content (r : List Nat) : List Nat := r.filter fun x => x != 0

/-- The merge scan result after re-compacting the zeros written by merges. -/
def mergedRow (l : List Nat) : List Nat := (mergeScanSpec l).1.filter fun x => x != 0

/-- `row != 0` adjacency test used by the fixed-point analysis: does the
list contain two adjacent equal entries? -/
def hasPair : List Nat → Bool
  | [] => false
  | a :: rest =>
    match rest with
    | [] => false
    | b :: _ => (a == b) || hasPair rest

lemma hasPair_nil : hasPair [] = false := rfl

lemma hasPair_single (a : Nat) : hasPair [a] = false := rfl

lemma hasPair_cons_cons (a b : Nat) (rest : List Nat) :
    hasPair (a :: b :: rest) = ((a == b) || hasPair (b :: rest)) := rfl

/-- Induction on lists matching the two-cells-at-a-time case analysis of
the merge scan. -/
lemma twoStepInduction {P : List Nat → Prop} (h0 : P []) (h1 : ∀ a, P [a])
    (h2 : ∀ a b rest, P rest → P (b :: rest) → P (a :: b :: rest)) :
    ∀ l, P l := by
  have key : ∀ n (l : List Nat), l.length ≤ n → P l := by
    intro n
    induction n with
    | zero =>
      intro l hl
      cases l with
      | nil => exact h0
      | cons a t => simp at hl
    | succ n ih =>
      intro l hl
      rcases l with _ | ⟨a, _ | ⟨b, rest⟩⟩
      · exact h0
      · exact h1 a
      · have hlen := hl
        simp only [List.length_cons] at hlen
        refine h2 a b rest (ih rest (by omega)) (ih (b :: rest) ?_)
        simp only [List.length_cons]
        omega
  intro l
  exact key l.length l le_rfl

lemma content_nonzero (r : List Nat) : ∀ x ∈ content r, x ≠ 0 := by
  intro x hx
  have := List.mem_filter.mp hx
  simpa using this.2

lemma content_length_le (r : List Nat) : (content r).length ≤ r.length :=
  List.length_filter_le _ r

/-- The merge scan keeps the length of the row: merges write zeros in
place of the removed cells. -/
lemma mergeScanSpec_length : ∀ l : List Nat, (mergeScanSpec l).1.length = l.length := by
  refine twoStepInduction rfl (fun a => rfl) ?_
  intro a b rest ih1 ih2
  by_cases hab : a = b
  · rw [mergeScanSpec_cons_cons, if_pos hab]
    simpa using ih1
  · rw [mergeScanSpec_cons_cons, if_neg hab]
    simpa using ih2

lemma mergedRow_length_le (l : List Nat) : (mergedRow l).length ≤ l.length := by
  unfold mergedRow
  calc ((mergeScanSpec l).1.filter fun x => x != 0).length
      ≤ (mergeScanSpec l).1.length := List.length_filter_le _ _
    _ = l.length := mergeScanSpec_length l

lemma mergedRow_merge (a b : Nat) (rest : List Nat) (ha : a ≠ 0) (hab : a = b) :
    mergedRow (a :: b :: rest) = 2 * a :: mergedRow rest := by
  unfold mergedRow
  rw [mergeScanSpec_cons_cons, if_pos hab]
  simp [List.filter_cons, Nat.mul_eq_zero, ha]

lemma mergedRow_nomerge (a b : Nat) (rest : List Nat) (ha : a ≠ 0) (hab : ¬ a = b) :
    mergedRow (a :: b :: rest) = a :: mergedRow (b :: rest) := by
  unfold mergedRow
  rw [mergeScanSpec_cons_cons, if_neg hab]
  simp [List.filter_cons, ha]

/-- Either the merge scan does nothing (result equal to the input, score
delta zero), or it strictly shortens the compacted content. -/
lemma mergedRow_eq_or_lt :
    ∀ l : List Nat, (∀ x ∈ l, x ≠ 0) →
      (mergedRow l = l ∧ (mergeScanSpec l).2 = 0) ∨ (mergedRow l).length < l.length := by
  refine twoStepInduction ?_ ?_ ?_
  · intro _; left; exact ⟨rfl, rfl⟩
  · intro a hz
    left
    refine ⟨?_, rfl⟩
    have ha : a ≠ 0 := hz a (by simp)
    simp [mergedRow, mergeScanSpec_single, List.filter_cons, ha]
  · intro a b rest ih1 ih2 hz
    have ha : a ≠ 0 := hz a (by simp)
    have hz2 : ∀ x ∈ b :: rest, x ≠ 0 := fun x hx => hz x (List.mem_cons_of_mem a hx)
    by_cases hab : a = b
    · right
      rw [mergedRow_merge a b rest ha hab]
      have := mergedRow_length_le rest
      simp only [List.length_cons]
      omega
    · rcases ih2 hz2 with ⟨heq, hsc⟩ | hlt
      · left
        constructor
        · rw [mergedRow_nomerge a b rest ha hab, heq]
        · rw [mergeScanSpec_cons_cons, if_neg hab]
          simpa using hsc
      · right
        rw [mergedRow_nomerge a b rest ha hab]
        simp only [List.length_cons] at hlt ⊢
        omega

/-- An adjacent equal pair makes the merge scan strictly shorten the
compacted content. -/
lemma mergedRow_lt_of_hasPair :
    ∀ l : List Nat, (∀ x ∈ l, x ≠ 0) → hasPair l = true →
      (mergedRow l).length < l.length := by
  refine twoStepInduction ?_ ?_ ?_
  · intro _ hp; simp [hasPair_nil] at hp
  · intro a _ hp; simp [hasPair_single] at hp
  · intro a b rest ih1 ih2 hz hp
    have ha : a ≠ 0 := hz a (by simp)
    have hz2 : ∀ x ∈ b :: rest, x ≠ 0 := fun x hx => hz x (List.mem_cons_of_mem a hx)
    by_cases hab : a = b
    · rw [mergedRow_merge a b rest ha hab]
      have := mergedRow_length_le rest
      simp only [List.length_cons]
      omega
    · have hp2 : hasPair (b :: rest) = true := by
        rw [hasPair_cons_cons] at hp
        simpa [hab] using hp
      rw [mergedRow_nomerge a b rest ha hab]
      have := ih2 hz2 hp2
      simp only [List.length_cons] at this ⊢
      omega

/-- Without an adjacent equal pair, the merge scan does nothing and adds
no score. -/
lemma mergedRow_eq_of_no_pair :
    ∀ l : List Nat, (∀ x ∈ l, x ≠ 0) → hasPair l = false →
      mergedRow l = l ∧ (mergeScanSpec l).2 = 0 := by
  refine twoStepInduction ?_ ?_ ?_
  · intro _ _; exact ⟨rfl, rfl⟩
  · intro a hz _
    have ha : a ≠ 0 := hz a (by simp)
    exact ⟨by simp [mergedRow, mergeScanSpec_single, List.filter_cons, ha], rfl⟩
  · intro a b rest ih1 ih2 hz hp
    have ha : a ≠ 0 := hz a (by simp)
    have hz2 : ∀ x ∈ b :: rest, x ≠ 0 := fun x hx => hz x (List.mem_cons_of_mem a hx)
    rw [hasPair_cons_cons] at hp
    have hab : ¬ a = b := by
      intro hcon
      simp [hcon] at hp
    have hp2 : hasPair (b :: rest) = false := by
      simpa [hab] using hp
    obtain ⟨heq, hsc⟩ := ih2 hz2 hp2
    constructor
    · rw [mergedRow_nomerge a b rest ha hab, heq]
    · rw [mergeScanSpec_cons_cons, if_neg hab]
      simpa using hsc

/-- Content length preserved by the merge scan forces it to do nothing. -/
lemma mergedRow_eq_of_length_eq (l : List Nat) (hz : ∀ x ∈ l, x ≠ 0)
    (hlen : (mergedRow l).length = l.length) :
    mergedRow l = l ∧ (mergeScanSpec l).2 = 0 := by
  rcases mergedRow_eq_or_lt l hz with h | h
  · exact h
  · omega

lemma two_le_of_hasPair (l : List Nat) (hp : hasPair l = true) : 2 ≤ l.length := by
  rcases l with _ | ⟨a, _ | ⟨b, t⟩⟩
  · simp [hasPair_nil] at hp
  · simp [hasPair_single] at hp
  · simp

/-- Every entry of the merge scan result is a zero, an input entry, or the
double of an input entry. -/
lemma mergeScanSpec_mem :
    ∀ l : List Nat, ∀ x ∈ (mergeScanSpec l).1,
      x = 0 ∨ x ∈ l ∨ ∃ a, a ∈ l ∧ x = 2 * a := by
  refine twoStepInduction ?_ ?_ ?_
  · intro x hx; simp [mergeScanSpec] at hx
  · intro a x hx
    simp [mergeScanSpec_single] at hx
    exact Or.inr (Or.inl (by simp [hx]))
  · intro a b rest ih1 ih2 x hx
    by_cases hab : a = b
    · rw [mergeScanSpec_cons_cons, if_pos hab] at hx
      rcases List.mem_cons.mp hx with h | hx2
      · exact Or.inr (Or.inr ⟨a, by simp, h⟩)
      · rcases List.mem_cons.mp hx2 with h | hx3
        · exact Or.inl h
        · rcases ih1 x hx3 with h | h | ⟨c, hc, hxc⟩
          · exact Or.inl h
          · exact Or.inr (Or.inl (by simp [h]))
          · exact Or.inr (Or.inr ⟨c, by simp [hc], hxc⟩)
    · rw [mergeScanSpec_cons_cons, if_neg hab] at hx
      rcases List.mem_cons.mp hx with h | hx2
      · exact Or.inr (Or.inl (by simp [h]))
      · rcases ih2 x hx2 with h | h | ⟨c, hc, hxc⟩
        · exact Or.inl h
        · exact Or.inr (Or.inl (List.mem_cons_of_mem a h))
        · exact Or.inr (Or.inr ⟨c, List.mem_cons_of_mem a hc, hxc⟩)

/-! ## Row-level behaviour of the compact-left primitive -/

lemma filter_replicate_zero (n : Nat) :
    (List.replicate n (0 : Nat)).filter (fun x => x != 0) = [] := by
  induction n with
  | zero => rfl
  | succ n ih => simp [List.replicate_succ, ih]

/-- `moveRow` in terms of the merge scan of the row's content. -/
lemma moveRow_eq (r : List Nat) :
    moveRow r =
      (mergedRow (content r)
        ++ List.replicate (r.length - (mergedRow (content r)).length) 0,
       (mergeScanSpec (content r)).2) := by
  rw [moveRow_eq_spec]
  rfl

lemma moveRow_fst (r : List Nat) :
    (moveRow r).1 = mergedRow (content r)
      ++ List.replicate (r.length - (mergedRow (content r)).length) 0 := by
  rw [moveRow_eq]

lemma moveRow_snd (r : List Nat) :
    (moveRow r).2 = (mergeScanSpec (content r)).2 := by
  rw [moveRow_eq]

/-- The grid row produced by one compact-left pass. -/
def rowPass (r : List Nat) : List Nat := (moveRow r).1

lemma moveRow_length (r : List Nat) : (rowPass r).length = r.length := by
  unfold rowPass
  rw [moveRow_fst]
  have h1 := mergedRow_length_le (content r)
  have h2 := content_length_le r
  simp
  omega

lemma content_moveRow (r : List Nat) : content (rowPass r) = mergedRow (content r) := by
  unfold rowPass content
  rw [moveRow_fst, List.filter_append, filter_replicate_zero, List.append_nil]
  apply List.filter_eq_self.mpr
  intro x hx
  unfold mergedRow at hx
  exact (List.mem_filter.mp hx).2

/-- A pass that leaves the row unchanged adds no score. -/
lemma moveRow_fixed_score (r : List Nat) (h : rowPass r = r) : (moveRow r).2 = 0 := by
  have hc : content r = mergedRow (content r) := by
    conv_lhs => rw [← h]
    rw [content_moveRow]
  have hlen : (mergedRow (content r)).length = (content r).length := by rw [← hc]
  have hfix := mergedRow_eq_of_length_eq (content r) (content_nonzero r) hlen
  rw [moveRow_snd]
  exact hfix.2

lemma rowPass_eq (r : List Nat) :
    rowPass r = mergedRow (content r)
      ++ List.replicate (r.length - (mergedRow (content r)).length) 0 :=
  moveRow_fst r

/-- The output of a pass is compacted: content first, then zeros. -/
lemma rowPass_compacted (r : List Nat) :
    rowPass r = content (rowPass r)
      ++ List.replicate (r.length - (content (rowPass r)).length) 0 := by
  rw [content_moveRow]
  exact moveRow_fst r

/-- If three passes bring a row back to its start, the first pass already
left it unchanged. -/
lemma rowPass_cycle (r : List Nat) (h : rowPass (rowPass (rowPass r)) = r) :
    rowPass r = r := by
  have hc1 : content (rowPass r) = mergedRow (content r) := content_moveRow r
  have hc2 : content (rowPass (rowPass r)) = mergedRow (content (rowPass r)) :=
    content_moveRow (rowPass r)
  have hc3 : content (rowPass (rowPass (rowPass r)))
      = mergedRow (content (rowPass (rowPass r))) := content_moveRow (rowPass (rowPass r))
  have hcc : content (rowPass (rowPass (rowPass r))) = content r := by rw [h]
  have e1 := mergedRow_length_le (content r)
  have e2 := mergedRow_length_le (content (rowPass r))
  have e3 := mergedRow_length_le (content (rowPass (rowPass r)))
  have hB := congrArg List.length hc1
  have hC := congrArg List.length hc2
  have hD := congrArg List.length hc3
  have hA := congrArg List.length hcc
  have hlen : (mergedRow (content r)).length = (content r).length := by omega
  obtain ⟨hmr, -⟩ := mergedRow_eq_of_length_eq (content r) (content_nonzero r) hlen
  have hc1e : content (rowPass r) = content r := by rw [hc1, hmr]
  have hm1 : mergedRow (content (rowPass r)) = content r := by rw [hc1e, hmr]
  have hc2e : content (rowPass (rowPass r)) = content r := by rw [hc2, hm1]
  have hm2 : mergedRow (content (rowPass (rowPass r))) = content r := by rw [hc2e, hmr]
  have hr1 : rowPass r = content r ++ List.replicate (r.length - (content r).length) 0 := by
    rw [rowPass_eq r, hmr]
  have hlen2 : (rowPass (rowPass r)).length = r.length := by
    rw [moveRow_length, moveRow_length]
  have hr3 : rowPass (rowPass (rowPass r))
      = content r ++ List.replicate (r.length - (content r).length) 0 := by
    rw [rowPass_eq (rowPass (rowPass r)), hm2, hlen2]
  rw [hr1, ← hr3, h]

/-- On a row of the 4-wide grid, three passes reach a fixed point of the
compact-left primitive. -/
lemma rowPass_three_fixed (r : List Nat) (h4 : r.length ≤ 4) :
    moveRow (rowPass (rowPass (rowPass r))) = (rowPass (rowPass (rowPass r)), 0) := by
  have hc1 : content (rowPass r) = mergedRow (content r) := content_moveRow r
  have hc2 : content (rowPass (rowPass r)) = mergedRow (content (rowPass r)) :=
    content_moveRow (rowPass r)
  have hc3 : content (rowPass (rowPass (rowPass r)))
      = mergedRow (content (rowPass (rowPass r))) := content_moveRow (rowPass (rowPass r))
  have hnp : hasPair (content (rowPass (rowPass (rowPass r)))) = false := by
    have key : hasPair (content (rowPass (rowPass (rowPass r)))) = true → False := by
      intro hp3
      have hp2 : hasPair (content (rowPass (rowPass r))) = true := by
        by_contra hcon
        simp only [Bool.not_eq_true] at hcon
        obtain ⟨heq, -⟩ :=
          mergedRow_eq_of_no_pair (content (rowPass (rowPass r)))
            (content_nonzero (rowPass (rowPass r))) hcon
        rw [hc3, heq] at hp3
        rw [hp3] at hcon
        exact Bool.noConfusion hcon
      have hp1 : hasPair (content (rowPass r)) = true := by
        by_contra hcon
        simp only [Bool.not_eq_true] at hcon
        obtain ⟨heq, -⟩ :=
          mergedRow_eq_of_no_pair (content (rowPass r))
            (content_nonzero (rowPass r)) hcon
        rw [hc2, heq] at hp2
        rw [hp2] at hcon
        exact Bool.noConfusion hcon
      have hp0 : hasPair (content r) = true := by
        by_contra hcon
        simp only [Bool.not_eq_true] at hcon
        obtain ⟨heq, -⟩ :=
          mergedRow_eq_of_no_pair (content r) (content_nonzero r) hcon
        rw [hc1, heq] at hp1
        rw [hp1] at hcon
        exact Bool.noConfusion hcon
      have s0 := mergedRow_lt_of_hasPair (content r) (content_nonzero r) hp0
      have s1 := mergedRow_lt_of_hasPair (content (rowPass r))
        (content_nonzero (rowPass r)) hp1
      have s2 := mergedRow_lt_of_hasPair (content (rowPass (rowPass r)))
        (content_nonzero (rowPass (rowPass r))) hp2
      have t3 := two_le_of_hasPair (content (rowPass (rowPass (rowPass r)))) hp3
      have hB := congrArg List.length hc1
      have hC := congrArg List.length hc2
      have hD := congrArg List.length hc3
      have hc0le : (content r).length ≤ 4 := le_trans (content_length_le r) h4
      omega
    cases hcase : hasPair (content (rowPass (rowPass (rowPass r)))) with
    | false => rfl
    | true => exact (key hcase).elim
  obtain ⟨hmr, hsc⟩ :=
    mergedRow_eq_of_no_pair (content (rowPass (rowPass (rowPass r))))
      (content_nonzero (rowPass (rowPass (rowPass r)))) hnp
  rw [moveRow_eq, hmr, hsc]
  have hlen3 : (rowPass (rowPass (rowPass r))).length = (rowPass (rowPass r)).length :=
    moveRow_length (rowPass (rowPass r))
  rw [hlen3, ← rowPass_compacted (rowPass (rowPass r))]

/-! ## Grid-level behaviour of the triple compact-left pass -/

/-- The grid produced by one compact-left pass. -/
def gridPass (g : Grid) : Grid := (move g).1

lemma move_fst (g : Grid) : (move g).1 = g.map rowPass := rfl

lemma move_snd (g : Grid) : (move g).2 = (g.map fun r => (moveRow r).2).sum := rfl

lemma gridPass_eq_map (g : Grid) : gridPass g = g.map rowPass := rfl

lemma map_eq_self {α : Type} (f : α → α) (l : List α) :
    l.map f = l ↔ ∀ x ∈ l, f x = x := by
  induction l with
  | nil => simp
  | cons a t ih => simp [ih]

/-- A pass that leaves the grid unchanged adds no score. -/
lemma gridPass_fixed_score (g : Grid) (h : gridPass g = g) : (move g).2 = 0 := by
  rw [move_snd]
  have hrows : ∀ r ∈ g, rowPass r = r := by
    rw [← map_eq_self rowPass g, ← gridPass_eq_map]
    exact h
  apply List.sum_eq_zero
  intro x hx
  simp only [List.mem_map] at hx
  obtain ⟨r, hr, hxr⟩ := hx
  rw [← hxr]
  exact moveRow_fixed_score r (hrows r hr)

/-- The three iterations of the handler loop, written out. -/
lemma movePasses_three (g : Grid) :
    movePasses 3 g =
      (gridPass (gridPass (gridPass g)),
       (move g).2 + ((move (gridPass g)).2 + ((move (gridPass (gridPass g))).2 + 0)),
       (decide (gridPass g ≠ g)
         || (decide (gridPass (gridPass g) ≠ gridPass g)
           || (decide (gridPass (gridPass (gridPass g)) ≠ gridPass (gridPass g))
             || false)))) := rfl

lemma gridPass_three_map (g : Grid) :
    gridPass (gridPass (gridPass g)) = g.map fun r => rowPass (rowPass (rowPass r)) := by
  simp [gridPass_eq_map, List.map_map, Function.comp]

/-- The `moved` flag of the triple pass is false exactly when the final
grid equals the initial one. -/
lemma movePasses_moved_iff (g : Grid) :
    (movePasses 3 g).2.2 = false ↔ (movePasses 3 g).1 = g := by
  rw [movePasses_three]
  simp only [Bool.or_eq_false_iff, decide_eq_false_iff_not, not_not]
  constructor
  · rintro ⟨h1, h2, h3, -⟩
    rw [h3, h2, h1]
  · intro h3
    have hrows : ∀ r ∈ g, rowPass (rowPass (rowPass r)) = r := by
      rw [← map_eq_self (fun r => rowPass (rowPass (rowPass r))) g, ← gridPass_three_map]
      exact h3
    have h1 : gridPass g = g := by
      rw [gridPass_eq_map, map_eq_self]
      intro r hr
      exact rowPass_cycle r (hrows r hr)
    refine ⟨h1, ?_, ?_, trivial⟩ <;> simp [h1]

/-- If the triple pass is a fixed point from the start, it does nothing. -/
lemma movePasses_three_of_fixed (g : Grid) (h : gridPass g = g) :
    movePasses 3 g = (g, 0, false) := by
  rw [movePasses_three]
  simp only [h]
  have hs := gridPass_fixed_score g h
  simp [hs]

/-- An unmoved triple pass leaves grid, score and flag untouched. -/
lemma movePasses_of_unmoved (g : Grid) (h : (movePasses 3 g).2.2 = false) :
    movePasses 3 g = (g, 0, false) := by
  have h3 := (movePasses_moved_iff g).mp h
  have hrows : ∀ r ∈ g, rowPass (rowPass (rowPass r)) = r := by
    rw [← map_eq_self (fun r => rowPass (rowPass (rowPass r))) g, ← gridPass_three_map]
    rw [movePasses_three] at h3
    exact h3
  have h1 : gridPass g = g := by
    rw [gridPass_eq_map, map_eq_self]
    intro r hr
    exact rowPass_cycle r (hrows r hr)
  exact movePasses_three_of_fixed g h1

/-- After one triple pass on a grid with rows of width at most 4, the grid
is a fixed point of the compact-left pass. -/
lemma gridPass_after_three (g : Grid) (hW : ∀ r ∈ g, r.length ≤ 4) :
    gridPass ((movePasses 3 g).1) = (movePasses 3 g).1 := by
  have hone : (movePasses 3 g).1 = g.map fun r => rowPass (rowPass (rowPass r)) := by
    rw [movePasses_three]
    exact gridPass_three_map g
  rw [hone, gridPass_eq_map, map_eq_self]
  intro r' hr'
  simp only [List.mem_map] at hr'
  obtain ⟨r, hr, hrr⟩ := hr'
  rw [← hrr]
  have hfix := rowPass_three_fixed r (hW r hr)
  have hdef : rowPass (rowPass (rowPass (rowPass r)))
      = (moveRow (rowPass (rowPass (rowPass r)))).1 := rfl
  rw [hdef, hfix]

/-- Applying the triple pass twice: the second run does nothing. -/
lemma movePasses_three_idem (g : Grid) (hW : ∀ r ∈ g, r.length ≤ 4) :
    movePasses 3 ((movePasses 3 g).1) = ((movePasses 3 g).1, 0, false) :=
  movePasses_three_of_fixed _ (gridPass_after_three g hW)

/-! ## Well-formed grids, rotations and flips -/

lemma row4 (r : List Nat) (h : r.length = 4) : ∃ a b c d, r = [a, b, c, d] := by
  rcases r with _ | ⟨a, r⟩
  · simp only [List.length_nil] at h
    omega
  rcases r with _ | ⟨b, r⟩
  · simp only [List.length_cons, List.length_nil] at h
    omega
  rcases r with _ | ⟨c, r⟩
  · simp only [List.length_cons, List.length_nil] at h
    omega
  rcases r with _ | ⟨d, r⟩
  · simp only [List.length_cons, List.length_nil] at h
    omega
  rcases r with _ | ⟨e, r⟩
  · exact ⟨a, b, c, d, rfl⟩
  · simp only [List.length_cons] at h
    omega

lemma grid4 (g : Grid) (hW : WF g) :
    ∃ r1 r2 r3 r4, g = [r1, r2, r3, r4]
      ∧ r1.length = 4 ∧ r2.length = 4 ∧ r3.length = 4 ∧ r4.length = 4 := by
  obtain ⟨hlen, hrows⟩ := hW
  obtain ⟨r1, r2, r3, r4, hg⟩ : ∃ r1 r2 r3 r4, g = [r1, r2, r3, r4] := by
    rcases g with _ | ⟨r1, g⟩
    · simp only [List.length_nil] at hlen
      omega
    rcases g with _ | ⟨r2, g⟩
    · simp only [List.length_cons, List.length_nil] at hlen
      omega
    rcases g with _ | ⟨r3, g⟩
    · simp only [List.length_cons, List.length_nil] at hlen
      omega
    rcases g with _ | ⟨r4, g⟩
    · simp only [List.length_cons, List.length_nil] at hlen
      omega
    rcases g with _ | ⟨r5, g⟩
    · exact ⟨r1, r2, r3, r4, rfl⟩
    · simp only [List.length_cons] at hlen
      omega
  subst hg
  exact ⟨r1, r2, r3, r4, rfl,
    hrows r1 (by simp), hrows r2 (by simp), hrows r3 (by simp), hrows r4 (by simp)⟩

/-- Any well-formed grid is a fully explicit 4×4 matrix. -/
lemma grid16 (g : Grid) (hW : WF g) :
    ∃ x11 x12 x13 x14 x21 x22 x23 x24 x31 x32 x33 x34 x41 x42 x43 x44,
      g = [[x11, x12, x13, x14], [x21, x22, x23, x24],
           [x31, x32, x33, x34], [x41, x42, x43, x44]] := by
  obtain ⟨r1, r2, r3, r4, hg, h1, h2, h3, h4⟩ := grid4 g hW
  obtain ⟨a1, a2, a3, a4, e1⟩ := row4 r1 h1
  obtain ⟨b1, b2, b3, b4, e2⟩ := row4 r2 h2
  obtain ⟨c1, c2, c3, c4, e3⟩ := row4 r3 h3
  obtain ⟨d1, d2, d3, d4, e4⟩ := row4 r4 h4
  subst hg e1 e2 e3 e4
  exact ⟨a1, a2, a3, a4, b1, b2, b3, b4, c1, c2, c3, c4, d1, d2, d3, d4, rfl⟩

lemma WF_explicit (x11 x12 x13 x14 x21 x22 x23 x24 x31 x32 x33 x34 x41 x42 x43 x44 : Nat) :
    WF [[x11, x12, x13, x14], [x21, x22, x23, x24],
        [x31, x32, x33, x34], [x41, x42, x43, x44]] := by
  refine ⟨rfl, ?_⟩
  intro r hr
  simp only [List.mem_cons, List.not_mem_nil, or_false] at hr
  rcases hr with rfl | rfl | rfl | rfl <;> rfl

lemma rotate13 (g : Grid) (hW : WF g) : rotate_grid (rotate_grid g 1) 3 = g := by
  obtain ⟨x11, x12, x13, x14, x21, x22, x23, x24,
    x31, x32, x33, x34, x41, x42, x43, x44, rfl⟩ := grid16 g hW
  rfl

lemma rotate31 (g : Grid) (hW : WF g) : rotate_grid (rotate_grid g 3) 1 = g := by
  obtain ⟨x11, x12, x13, x14, x21, x22, x23, x24,
    x31, x32, x33, x34, x41, x42, x43, x44, rfl⟩ := grid16 g hW
  rfl

lemma fliplr_fliplr (g : Grid) : fliplr (fliplr g) = g := by
  simp [fliplr, List.map_map, Function.comp, List.reverse_reverse]

lemma WF_rot1 (g : Grid) (hW : WF g) : WF (rotate_grid g 1) := by
  obtain ⟨x11, x12, x13, x14, x21, x22, x23, x24,
    x31, x32, x33, x34, x41, x42, x43, x44, rfl⟩ := grid16 g hW
  exact WF_explicit _ _ _ _ _ _ _ _ _ _ _ _ _ _ _ _

lemma WF_rot3 (g : Grid) (hW : WF g) : WF (rotate_grid g 3) := by
  obtain ⟨x11, x12, x13, x14, x21, x22, x23, x24,
    x31, x32, x33, x34, x41, x42, x43, x44, rfl⟩ := grid16 g hW
  exact WF_explicit _ _ _ _ _ _ _ _ _ _ _ _ _ _ _ _

lemma WF_fliplr (g : Grid) (hW : WF g) : WF (fliplr g) := by
  obtain ⟨hlen, hrows⟩ := hW
  refine ⟨by simpa [fliplr] using hlen, ?_⟩
  intro r hr
  simp only [fliplr, List.mem_map] at hr
  obtain ⟨r0, hr0, hrr⟩ := hr
  rw [← hrr]
  simpa using hrows r0 hr0

lemma WF_gridPass (g : Grid) (hW : WF g) : WF (gridPass g) := by
  obtain ⟨hlen, hrows⟩ := hW
  refine ⟨by simpa [gridPass_eq_map] using hlen, ?_⟩
  intro r hr
  simp only [gridPass_eq_map, List.mem_map] at hr
  obtain ⟨r0, hr0, hrr⟩ := hr
  rw [← hrr, moveRow_length]
  exact hrows r0 hr0

lemma WF_movePasses (g : Grid) (hW : WF g) : WF ((movePasses 3 g).1) := by
  have hone : (movePasses 3 g).1 = gridPass (gridPass (gridPass g)) := by
    rw [movePasses_three]
  rw [hone]
  exact WF_gridPass _ (WF_gridPass _ (WF_gridPass _ hW))

lemma rows_le_four (g : Grid) (hW : WF g) : ∀ r ∈ g, r.length ≤ 4 := by
  intro r hr
  rw [hW.2 r hr]

/-! ## The four direction handlers -/

lemma move_left_def (g : Grid) : move_left g = movePasses 3 g := rfl

lemma move_up_def (g : Grid) :
    move_up g =
      (rotate_grid (movePasses 3 (rotate_grid g 1)).1 3,
       (movePasses 3 (rotate_grid g 1)).2) := rfl

lemma move_down_def (g : Grid) :
    move_down g =
      (rotate_grid (movePasses 3 (rotate_grid g 3)).1 1,
       (movePasses 3 (rotate_grid g 3)).2) := rfl

lemma move_right_def (g : Grid) :
    move_right g =
      (fliplr (movePasses 3 (fliplr g)).1, (movePasses 3 (fliplr g)).2) := rfl

lemma move_left_moved_iff (g : Grid) :
    (move_left g).2.2 = true ↔ (move_left g).1 ≠ g := by
  have h := not_congr (movePasses_moved_iff g)
  simpa [Bool.not_eq_false, move_left_def] using h

lemma move_up_moved_iff (g : Grid) (hW : WF g) :
    (move_up g).2.2 = true ↔ (move_up g).1 ≠ g := by
  have hW1 := WF_rot1 g hW
  have hWP := WF_movePasses _ hW1
  have hgrid : (movePasses 3 (rotate_grid g 1)).1 = rotate_grid g 1
      ↔ (move_up g).1 = g := by
    rw [move_up_def]
    constructor
    · intro h
      simp only [h]
      exact rotate13 g hW
    · intro h
      simp only [move_up_def] at h
      calc (movePasses 3 (rotate_grid g 1)).1
          = rotate_grid (rotate_grid (movePasses 3 (rotate_grid g 1)).1 3) 1 :=
            (rotate31 _ hWP).symm
        _ = rotate_grid g 1 := by rw [h]
  have h := not_congr ((movePasses_moved_iff (rotate_grid g 1)).trans hgrid)
  simpa [Bool.not_eq_false, move_up_def] using h

lemma move_down_moved_iff (g : Grid) (hW : WF g) :
    (move_down g).2.2 = true ↔ (move_down g).1 ≠ g := by
  have hW1 := WF_rot3 g hW
  have hWP := WF_movePasses _ hW1
  have hgrid : (movePasses 3 (rotate_grid g 3)).1 = rotate_grid g 3
      ↔ (move_down g).1 = g := by
    rw [move_down_def]
    constructor
    · intro h
      simp only [h]
      exact rotate31 g hW
    · intro h
      simp only [move_down_def] at h
      calc (movePasses 3 (rotate_grid g 3)).1
          = rotate_grid (rotate_grid (movePasses 3 (rotate_grid g 3)).1 1) 3 :=
            (rotate13 _ hWP).symm
        _ = rotate_grid g 3 := by rw [h]
  have h := not_congr ((movePasses_moved_iff (rotate_grid g 3)).trans hgrid)
  simpa [Bool.not_eq_false, move_down_def] using h

lemma move_right_moved_iff (g : Grid) :
    (move_right g).2.2 = true ↔ (move_right g).1 ≠ g := by
  have hgrid : (movePasses 3 (fliplr g)).1 = fliplr g ↔ (move_right g).1 = g := by
    rw [move_right_def]
    constructor
    · intro h
      simp only [h]
      exact fliplr_fliplr g
    · intro h
      simp only [move_right_def] at h
      calc (movePasses 3 (fliplr g)).1
          = fliplr (fliplr (movePasses 3 (fliplr g)).1) := (fliplr_fliplr _).symm
        _ = fliplr g := by rw [h]
  have h := not_congr ((movePasses_moved_iff (fliplr g)).trans hgrid)
  simpa [Bool.not_eq_false, move_right_def] using h

lemma move_left_unmoved (g : Grid) (h : (move_left g).2.2 = false) :
    move_left g = (g, 0, false) :=
  movePasses_of_unmoved g h

lemma move_up_unmoved (g : Grid) (hW : WF g) (h : (move_up g).2.2 = false) :
    move_up g = (g, 0, false) := by
  have h3 := movePasses_of_unmoved (rotate_grid g 1) h
  rw [move_up_def, h3]
  simp [rotate13 g hW]

lemma move_down_unmoved (g : Grid) (hW : WF g) (h : (move_down g).2.2 = false) :
    move_down g = (g, 0, false) := by
  have h3 := movePasses_of_unmoved (rotate_grid g 3) h
  rw [move_down_def, h3]
  simp [rotate31 g hW]

lemma move_right_unmoved (g : Grid) (h : (move_right g).2.2 = false) :
    move_right g = (g, 0, false) := by
  have h3 := movePasses_of_unmoved (fliplr g) h
  rw [move_right_def, h3]
  simp [fliplr_fliplr g]

lemma move_left_idem (g : Grid) (hW : WF g) :
    move_left ((move_left g).1) = ((move_left g).1, 0, false) :=
  movePasses_three_idem g (rows_le_four g hW)

lemma move_up_idem (g : Grid) (hW : WF g) :
    move_up ((move_up g).1) = ((move_up g).1, 0, false) := by
  have hW1 := WF_rot1 g hW
  have hWP := WF_movePasses _ hW1
  have hinv : rotate_grid (rotate_grid ((movePasses 3 (rotate_grid g 1)).1) 3) 1
      = (movePasses 3 (rotate_grid g 1)).1 := rotate31 _ hWP
  have hidem := movePasses_three_idem (rotate_grid g 1) (rows_le_four _ hW1)
  simp only [move_up_def]
  rw [hinv, hidem]

lemma move_down_idem (g : Grid) (hW : WF g) :
    move_down ((move_down g).1) = ((move_down g).1, 0, false) := by
  have hW1 := WF_rot3 g hW
  have hWP := WF_movePasses _ hW1
  have hinv : rotate_grid (rotate_grid ((movePasses 3 (rotate_grid g 3)).1) 1) 3
      = (movePasses 3 (rotate_grid g 3)).1 := rotate13 _ hWP
  have hidem := movePasses_three_idem (rotate_grid g 3) (rows_le_four _ hW1)
  simp only [move_down_def]
  rw [hinv, hidem]

lemma move_right_idem (g : Grid) (hW : WF g) :
    move_right ((move_right g).1) = ((move_right g).1, 0, false) := by
  have hinv : fliplr (fliplr ((movePasses 3 (fliplr g)).1))
      = (movePasses 3 (fliplr g)).1 := fliplr_fliplr _
  have hidem := movePasses_three_idem (fliplr g) (rows_le_four _ (WF_fliplr g hW))
  simp only [move_right_def]
  rw [hinv, hidem]

/-! ## Event-level lemmas: score accounting and the unmoved case -/

lemma move_left_event_score (g : Grid) (s : Nat) (running : Bool) (k v : Nat) :
    (move_left_event g s running k v).2.1 = s + (move_left g).2.1 := by
  unfold move_left_event
  cases h : (move_left g).2.2 <;> simp [h]

lemma move_up_event_score (g : Grid) (s : Nat) (running : Bool) (k v : Nat) :
    (move_up_event g s running k v).2.1 = s + (move_up g).2.1 := by
  unfold move_up_event
  cases h : (move_up g).2.2 <;> simp [h]

lemma move_down_event_score (g : Grid) (s : Nat) (running : Bool) (k v : Nat) :
    (move_down_event g s running k v).2.1 = s + (move_down g).2.1 := by
  unfold move_down_event
  cases h : (move_down g).2.2 <;> simp [h]

lemma move_right_event_score (g : Grid) (s : Nat) (running : Bool) (k v : Nat) :
    (move_right_event g s running k v).2.1 = s + (move_right g).2.1 := by
  unfold move_right_event
  cases h : (move_right g).2.2 <;> simp [h]

lemma move_left_event_unmoved (g : Grid) (s : Nat) (running : Bool) (k v : Nat)
    (h : (move_left g).2.2 = false) :
    move_left_event g s running k v = (g, s, running) := by
  unfold move_left_event
  rw [move_left_unmoved g h]
  simp

lemma move_up_event_unmoved (g : Grid) (s : Nat) (running : Bool) (k v : Nat)
    (hW : WF g) (h : (move_up g).2.2 = false) :
    move_up_event g s running k v = (g, s, running) := by
  unfold move_up_event
  rw [move_up_unmoved g hW h]
  simp

lemma move_down_event_unmoved (g : Grid) (s : Nat) (running : Bool) (k v : Nat)
    (hW : WF g) (h : (move_down g).2.2 = false) :
    move_down_event g s running k v = (g, s, running) := by
  unfold move_down_event
  rw [move_down_unmoved g hW h]
  simp

lemma move_right_event_unmoved (g : Grid) (s : Nat) (running : Bool) (k v : Nat)
    (h : (move_right g).2.2 = false) :
    move_right_event g s running k v = (g, s, running) := by
  unfold move_right_event
  rw [move_right_unmoved g h]
  simp

/-! ## Score deltas are merged-tile sums -/

lemma move_snd_eq_specMergedTotal (g : Grid) : (move g).2 = specMergedTotal g := by
  rw [move_snd]
  unfold specMergedTotal
  simp [moveRow_snd, content]

lemma movePasses_delta (g : Grid) :
    (movePasses 3 g).2.1 =
      specMergedTotal g + specMergedTotal (gridPass g)
        + specMergedTotal (gridPass (gridPass g)) := by
  rw [movePasses_three]
  simp [move_snd_eq_specMergedTotal, Nat.add_assoc]

lemma move_eq_moveSpec (m : Grid) : move m = moveSpec m := by
  unfold move moveSpec
  simp [moveRow_eq_spec]

/-! ## Game-over characterization -/

lemma forall_lt_four (P : Nat → Prop) :
    (∀ i, i < 4 → P i) ↔ P 0 ∧ P 1 ∧ P 2 ∧ P 3 := by
  constructor
  · intro h
    exact ⟨h 0 (by omega), h 1 (by omega), h 2 (by omega), h 3 (by omega)⟩
  · rintro ⟨h0, h1, h2, h3⟩ i hi
    interval_cases i <;> assumption

lemma forall_lt_three (P : Nat → Prop) :
    (∀ i, i < 3 → P i) ↔ P 0 ∧ P 1 ∧ P 2 := by
  constructor
  · intro h
    exact ⟨h 0 (by omega), h 1 (by omega), h 2 (by omega)⟩
  · rintro ⟨h0, h1, h2⟩ i hi
    interval_cases i <;> assumption

/-- The boolean `can_move` returning false is exactly the spec's `Over`
state. -/
lemma can_move_false_iff (g : Grid) : can_move g = false ↔ OverSpec g := by
  unfold can_move OverSpec
  rw [show List.range 4 = [0, 1, 2, 3] from rfl]
  simp only [forall_lt_four, forall_lt_three, List.any_cons, List.any_nil,
    Bool.or_eq_false_iff, beq_eq_false_iff_ne]
  simp
  tauto

/-! ## Spawning a tile -/

lemma mem_empty_cells (g : Grid) (i j : Nat) :
    (i, j) ∈ empty_cells g ↔ i < 4 ∧ j < 4 ∧ cell g i j = 0 := by
  unfold empty_cells
  simp only [List.mem_flatMap, List.mem_map, List.mem_filter, List.mem_range]
  constructor
  · rintro ⟨a, ha, b, ⟨hb, hc⟩, heq⟩
    simp only [Prod.mk.injEq] at heq
    obtain ⟨rfl, rfl⟩ := heq
    exact ⟨ha, hb, by simpa using hc⟩
  · rintro ⟨hi, hj, hc⟩
    exact ⟨i, hi, j, ⟨hj, by simpa using hc⟩, rfl⟩

lemma getD_mem {α : Type} (l : List α) (n : Nat) (d : α) (h : n < l.length) :
    l.getD n d ∈ l := by
  induction l generalizing n with
  | nil => simp at h
  | cons a t ih =>
    cases n with
    | zero => simp
    | succ n =>
      have hmem := ih n (by simpa using h)
      simp only [List.getD_cons_succ, List.mem_cons]
      exact Or.inr hmem

lemma getD_set_ne {α : Type} (l : List α) (i a : Nat) (x d : α) (h : a ≠ i) :
    (l.set i x).getD a d = l.getD a d := by
  induction l generalizing i a with
  | nil => simp
  | cons y t ih =>
    cases i with
    | zero =>
      cases a with
      | zero => exact absurd rfl h
      | succ a => simp
    | succ i =>
      cases a with
      | zero => simp
      | succ a => simpa using ih i a (fun hc => h (by rw [hc]))

lemma getD_set_self {α : Type} (l : List α) (i : Nat) (x d : α) (h : i < l.length) :
    (l.set i x).getD i d = x := by
  induction l generalizing i with
  | nil => simp at h
  | cons y t ih =>
    cases i with
    | zero => simp
    | succ i => simpa using ih i (by simpa using h)

lemma cell_setCell_self (g : Grid) (i j v : Nat) (hi : i < g.length)
    (hj : j < (g.getD i []).length) :
    cell (setCell g i j v) i j = v := by
  unfold cell setCell
  rw [getD_set_self g i _ [] hi, getD_set_self _ j v 0 (by simpa using hj)]

lemma cell_setCell_ne (g : Grid) (i j v a b : Nat) (h : ¬ (a = i ∧ b = j)) :
    cell (setCell g i j v) a b = cell g a b := by
  unfold cell setCell
  by_cases hai : a = i
  · subst hai
    have hbj : b ≠ j := fun hc => h ⟨rfl, hc⟩
    by_cases hlen : a < g.length
    · rw [getD_set_self g a _ [] hlen, getD_set_ne _ j b _ 0 hbj]
    · rw [List.set_eq_of_length_le (by omega)]
  · rw [getD_set_ne g i a _ [] hai]

lemma filter_length_set_nonzero (r : List Nat) (j v : Nat) (hj : j < r.length)
    (h0 : r.getD j 0 = 0) (hv : v ≠ 0) :
    ((r.set j v).filter fun x => x != 0).length
      = (r.filter fun x => x != 0).length + 1 := by
  induction r generalizing j with
  | nil => simp at hj
  | cons a t ih =>
    cases j with
    | zero =>
      have ha : a = 0 := by simpa using h0
      subst ha
      simp [List.filter_cons, hv]
    | succ j =>
      have hrec := ih j (by simpa using hj) (by simpa using h0)
      by_cases ha : a = 0 <;> simp [List.filter_cons, ha, hrec]

lemma occupied_set_row (g : Grid) (i : Nat) (rnew : List Nat) (hi : i < g.length) :
    occupiedCount (g.set i rnew) + ((g.getD i []).filter fun x => x != 0).length
      = occupiedCount g + (rnew.filter fun x => x != 0).length := by
  induction g generalizing i with
  | nil => simp at hi
  | cons r0 t ih =>
    cases i with
    | zero =>
      simp only [List.set, occupiedCount, List.map_cons, List.sum_cons, List.getD_cons_zero]
      omega
    | succ i =>
      have hrec := ih i (by simpa using hi)
      simp only [List.set, occupiedCount, List.map_cons, List.sum_cons,
        List.getD_cons_succ] at hrec ⊢
      omega

/-- `add_random_tile` with an empty cell available: the full effect. -/
lemma add_random_tile_spawn (g : Grid) (k v : Nat) (hW : WF g) (hv : v ≠ 0)
    (hne : empty_cells g ≠ []) :
    ∃ i j, i < 4 ∧ j < 4 ∧ cell g i j = 0 ∧
      add_random_tile g k v = setCell g i j v ∧
      occupiedCount (add_random_tile g k v) = occupiedCount g + 1 ∧
      cell (add_random_tile g k v) i j = v ∧
      ∀ a b, ¬ (a = i ∧ b = j) → cell (add_random_tile g k v) a b = cell g a b := by
  have hlen : 0 < (empty_cells g).length := List.length_pos.mpr hne
  have hmod : k % (empty_cells g).length < (empty_cells g).length := Nat.mod_lt k hlen
  have hmem := getD_mem (empty_cells g) (k % (empty_cells g).length) (0, 0) hmod
  set c := (empty_cells g).getD (k % (empty_cells g).length) (0, 0) with hc
  obtain ⟨hi4, hj4, hcell⟩ := (mem_empty_cells g c.1 c.2).mp hmem
  have hstep : add_random_tile g k v = setCell g c.1 c.2 v := by
    unfold add_random_tile
    rw [if_neg (by simpa [List.isEmpty_iff] using hne)]
  have higl : c.1 < g.length := by
    rw [hW.1]
    exact hi4
  have hrow : c.2 < (g.getD c.1 []).length := by
    have hmem2 : g.getD c.1 [] ∈ g := getD_mem g c.1 [] higl
    rw [hW.2 (g.getD c.1 []) hmem2]
    exact hj4
  refine ⟨c.1, c.2, hi4, hj4, hcell, hstep, ?_, ?_, ?_⟩
  · rw [hstep]
    have hocc := occupied_set_row g c.1 ((g.getD c.1 []).set c.2 v) higl
    have h0 : (g.getD c.1 []).getD c.2 0 = 0 := hcell
    have hfl := filter_length_set_nonzero (g.getD c.1 []) c.2 v hrow h0 hv
    unfold setCell
    omega
  · rw [hstep]
    exact cell_setCell_self g c.1 c.2 v higl hrow
  · intro a b hab
    rw [hstep]
    exact cell_setCell_ne g c.1 c.2 v a b hab

/-- `add_random_tile` with a full board: silent no-op. -/
lemma add_random_tile_full (g : Grid) (k v : Nat) (h : empty_cells g = []) :
    add_random_tile g k v = g := by
  unfold add_random_tile
  rw [if_pos (by simp [h])]

/-! ## The power-of-two invariant and the occupancy bound -/

lemma pow_mem_moveRow (r : List Nat) (hr : ∀ x ∈ r, x ≠ 0 → ∃ n, x = 2 ^ n) :
    ∀ x ∈ (moveRow r).1, x ≠ 0 → ∃ n, x = 2 ^ n := by
  intro x hx hxne
  rw [moveRow_fst] at hx
  rcases List.mem_append.mp hx with hx | hx
  · have hx2 : x ∈ (mergeScanSpec (content r)).1 := List.mem_of_mem_filter hx
    rcases mergeScanSpec_mem (content r) x hx2 with h0 | hmem | ⟨a, ha, hxa⟩
    · exact absurd h0 hxne
    · exact hr x (List.mem_of_mem_filter hmem) hxne
    · have hane : a ≠ 0 := by
        intro hc
        rw [hc] at hxa
        simp at hxa
        exact hxne hxa
      obtain ⟨n, hn⟩ := hr a (List.mem_of_mem_filter ha) hane
      refine ⟨n + 1, ?_⟩
      rw [hxa, hn, pow_succ]
      ring
  · exact absurd (List.eq_of_mem_replicate hx) hxne

lemma PowTwoInv_gridPass (g : Grid) (h : PowTwoInv g) : PowTwoInv (gridPass g) := by
  intro r hr
  rw [gridPass_eq_map] at hr
  simp only [List.mem_map] at hr
  obtain ⟨r0, hr0, hrr⟩ := hr
  rw [← hrr]
  exact pow_mem_moveRow r0 (h r0 hr0)

lemma PowTwoInv_movePasses (g : Grid) (h : PowTwoInv g) :
    PowTwoInv ((movePasses 3 g).1) := by
  have hone : (movePasses 3 g).1 = gridPass (gridPass (gridPass g)) := by
    rw [movePasses_three]
  rw [hone]
  exact PowTwoInv_gridPass _ (PowTwoInv_gridPass _ (PowTwoInv_gridPass _ h))

lemma PowTwoInv_of_mem_subset (g g2 : Grid)
    (hsub : ∀ x, (∃ r ∈ g2, x ∈ r) → ∃ r ∈ g, x ∈ r) (h : PowTwoInv g) :
    PowTwoInv g2 := by
  intro r hr x hx hxne
  obtain ⟨r0, hr0, hx0⟩ := hsub x ⟨r, hr, hx⟩
  exact h r0 hr0 x hx0 hxne

lemma rot1_explicit (p11 p12 p13 p14 p21 p22 p23 p24
    p31 p32 p33 p34 p41 p42 p43 p44 : Nat) :
    rotate_grid [[p11, p12, p13, p14], [p21, p22, p23, p24],
      [p31, p32, p33, p34], [p41, p42, p43, p44]] 1
    = [[p14, p24, p34, p44], [p13, p23, p33, p43],
       [p12, p22, p32, p42], [p11, p21, p31, p41]] := rfl

lemma rot3_explicit (p11 p12 p13 p14 p21 p22 p23 p24
    p31 p32 p33 p34 p41 p42 p43 p44 : Nat) :
    rotate_grid [[p11, p12, p13, p14], [p21, p22, p23, p24],
      [p31, p32, p33, p34], [p41, p42, p43, p44]] 3
    = [[p41, p31, p21, p11], [p42, p32, p22, p12],
       [p43, p33, p23, p13], [p44, p34, p24, p14]] := rfl

lemma rot1_mem_subset (g : Grid) (hW : WF g) :
    ∀ x, (∃ r ∈ rotate_grid g 1, x ∈ r) → ∃ r ∈ g, x ∈ r := by
  obtain ⟨x11, x12, x13, x14, x21, x22, x23, x24,
    x31, x32, x33, x34, x41, x42, x43, x44, rfl⟩ := grid16 g hW
  rintro x ⟨r, hr, hx⟩
  rw [rot1_explicit] at hr
  simp only [List.mem_cons, List.not_mem_nil, or_false] at hr
  rcases hr with rfl | rfl | rfl | rfl <;>
    simp only [List.mem_cons, List.not_mem_nil, or_false] at hx <;>
    rcases hx with rfl | rfl | rfl | rfl <;> simp

lemma rot3_mem_subset (g : Grid) (hW : WF g) :
    ∀ x, (∃ r ∈ rotate_grid g 3, x ∈ r) → ∃ r ∈ g, x ∈ r := by
  obtain ⟨x11, x12, x13, x14, x21, x22, x23, x24,
    x31, x32, x33, x34, x41, x42, x43, x44, rfl⟩ := grid16 g hW
  rintro x ⟨r, hr, hx⟩
  rw [rot3_explicit] at hr
  simp only [List.mem_cons, List.not_mem_nil, or_false] at hr
  rcases hr with rfl | rfl | rfl | rfl <;>
    simp only [List.mem_cons, List.not_mem_nil, or_false] at hx <;>
    rcases hx with rfl | rfl | rfl | rfl <;> simp

lemma fliplr_mem_subset (g : Grid) :
    ∀ x, (∃ r ∈ fliplr g, x ∈ r) → ∃ r ∈ g, x ∈ r := by
  rintro x ⟨r, hr, hx⟩
  simp only [fliplr, List.mem_map] at hr
  obtain ⟨r0, hr0, hrr⟩ := hr
  rw [← hrr] at hx
  exact ⟨r0, hr0, by simpa using hx⟩

lemma PowTwoInv_setCell (g : Grid) (i j v : Nat) (hi : i < g.length)
    (h : PowTwoInv g) (hv : ∃ n, v = 2 ^ n) : PowTwoInv (setCell g i j v) := by
  intro r hr x hx hxne
  unfold setCell at hr
  rcases List.mem_or_eq_of_mem_set hr with hrg | hrnew
  · exact h r hrg x hx hxne
  · subst hrnew
    rcases List.mem_or_eq_of_mem_set hx with hxold | hxv
    · exact h (g.getD i []) (getD_mem g i [] hi) x hxold hxne
    · rw [hxv]
      exact hv

lemma WF_setCell (g : Grid) (i j v : Nat) (hW : WF g) : WF (setCell g i j v) := by
  obtain ⟨hlen, hrows⟩ := hW
  refine ⟨by simpa [setCell] using hlen, ?_⟩
  intro r hr
  by_cases hi : i < g.length
  · unfold setCell at hr
    rcases List.mem_or_eq_of_mem_set hr with hrg | hrnew
    · exact hrows r hrg
    · subst hrnew
      rw [List.length_set]
      exact hrows _ (getD_mem g i [] hi)
  · unfold setCell at hr
    rw [List.set_eq_of_length_le (by omega)] at hr
    exact hrows r hr

lemma WF_add_random_tile (g : Grid) (k v : Nat) (hW : WF g) :
    WF (add_random_tile g k v) := by
  by_cases hne : empty_cells g = []
  · rw [add_random_tile_full g k v hne]
    exact hW
  · unfold add_random_tile
    rw [if_neg (by simpa [List.isEmpty_iff] using hne)]
    exact WF_setCell g _ _ v hW

lemma PowTwoInv_add_random_tile (g : Grid) (k v : Nat) (hW : WF g)
    (h : PowTwoInv g) (hv : v = 2 ∨ v = 4) : PowTwoInv (add_random_tile g k v) := by
  by_cases hne : empty_cells g = []
  · rw [add_random_tile_full g k v hne]
    exact h
  · obtain ⟨i, j, hi, hj, hc, hstep, -, -, -⟩ :=
      add_random_tile_spawn g k v hW (by rcases hv with rfl | rfl <;> omega) hne
    rw [hstep]
    refine PowTwoInv_setCell g i j v (by rw [hW.1]; exact hi) h ?_
    rcases hv with rfl | rfl
    · exact ⟨1, rfl⟩
    · exact ⟨2, rfl⟩

lemma occupied_le_16 (g : Grid) (hW : WF g) : occupiedCount g ≤ 16 := by
  obtain ⟨r1, r2, r3, r4, rfl, h1, h2, h3, h4⟩ := grid4 g hW
  have e1 := List.length_filter_le (fun x => x != 0) r1
  have e2 := List.length_filter_le (fun x => x != 0) r2
  have e3 := List.length_filter_le (fun x => x != 0) r3
  have e4 := List.length_filter_le (fun x => x != 0) r4
  unfold occupiedCount
  simp only [List.map_cons, List.map_nil, List.sum_cons, List.sum_nil]
  omega

lemma WF_zeros : WF (List.replicate 4 (List.replicate 4 0)) := by
  refine ⟨by simp, ?_⟩
  intro r hr
  rw [List.eq_of_mem_replicate hr]
  simp

lemma PowTwoInv_zeros : PowTwoInv (List.replicate 4 (List.replicate 4 0)) := by
  intro r hr x hx hxne
  rw [List.eq_of_mem_replicate hr] at hx
  exact absurd (List.eq_of_mem_replicate hx) hxne

lemma WF_init_grid (k1 v1 k2 v2 : Nat) : WF (init_grid k1 v1 k2 v2) :=
  WF_add_random_tile _ k2 v2 (WF_add_random_tile _ k1 v1 WF_zeros)

lemma PowTwoInv_init_grid (k1 v1 k2 v2 : Nat) (hv1 : v1 = 2 ∨ v1 = 4)
    (hv2 : v2 = 2 ∨ v2 = 4) : PowTwoInv (init_grid k1 v1 k2 v2) :=
  PowTwoInv_add_random_tile _ k2 v2 (WF_add_random_tile _ k1 v1 WF_zeros)
    (PowTwoInv_add_random_tile _ k1 v1 WF_zeros PowTwoInv_zeros hv1) hv2

lemma PowTwoInv_move_left (g : Grid) (h : PowTwoInv g) :
    PowTwoInv ((move_left g).1) :=
  PowTwoInv_movePasses g h

lemma PowTwoInv_move_up (g : Grid) (hW : WF g) (h : PowTwoInv g) :
    PowTwoInv ((move_up g).1) := by
  have h1 := PowTwoInv_of_mem_subset g (rotate_grid g 1) (rot1_mem_subset g hW) h
  have h2 := PowTwoInv_movePasses _ h1
  have hWP := WF_movePasses _ (WF_rot1 g hW)
  exact PowTwoInv_of_mem_subset _ _ (rot3_mem_subset _ hWP) h2

lemma PowTwoInv_move_down (g : Grid) (hW : WF g) (h : PowTwoInv g) :
    PowTwoInv ((move_down g).1) := by
  have h1 := PowTwoInv_of_mem_subset g (rotate_grid g 3) (rot3_mem_subset g hW) h
  have h2 := PowTwoInv_movePasses _ h1
  have hWP := WF_movePasses _ (WF_rot3 g hW)
  exact PowTwoInv_of_mem_subset _ _ (rot1_mem_subset _ hWP) h2

lemma PowTwoInv_move_right (g : Grid) (h : PowTwoInv g) :
    PowTwoInv ((move_right g).1) := by
  have h1 := PowTwoInv_of_mem_subset g (fliplr g) (fliplr_mem_subset g) h
  have h2 := PowTwoInv_movePasses _ h1
  exact PowTwoInv_of_mem_subset _ _ (fliplr_mem_subset _) h2

lemma WF_move_left (g : Grid) (hW : WF g) : WF ((move_left g).1) :=
  WF_movePasses g hW

lemma WF_move_up (g : Grid) (hW : WF g) : WF ((move_up g).1) := by
  have hWP := WF_movePasses _ (WF_rot1 g hW)
  exact WF_rot3 _ hWP

lemma WF_move_down (g : Grid) (hW : WF g) : WF ((move_down g).1) := by
  have hWP := WF_movePasses _ (WF_rot3 g hW)
  exact WF_rot1 _ hWP

lemma WF_move_right (g : Grid) (hW : WF g) : WF ((move_right g).1) := by
  have hWP := WF_movePasses _ (WF_fliplr g hW)
  exact WF_fliplr _ hWP

/-! ## Claim theorems -/

/-- A board with no empty cell and no equal neighbours (the spec's dead
board example). -/
def Gdead : Grid := [[2, 4, 2, 4], [4, 2, 4, 2], [2, 4, 2, 4], [4, 2, 4, 2]]

/-- The all-zero board. -/
def Gzero : Grid := [[0, 0, 0, 0], [0, 0, 0, 0], [0, 0, 0, 0], [0, 0, 0, 0]]

/-- C1, counterexample: a Left move on a grid whose first row is
[2,2,2,2] does yield [8,0,0,0] under the triple-pass rule, but the score
delta is 16 (4+4+8), not 12 as the claim states. -/
theorem claim_C1_counterexample :
    (move_left [[2, 2, 2, 2], [0, 0, 0, 0], [0, 0, 0, 0], [0, 0, 0, 0]]).1
      = [[8, 0, 0, 0], [0, 0, 0, 0], [0, 0, 0, 0], [0, 0, 0, 0]]
    ∧ (move_left [[2, 2, 2, 2], [0, 0, 0, 0], [0, 0, 0, 0], [0, 0, 0, 0]]).2.1 = 16
    ∧ ¬ (move_left [[2, 2, 2, 2], [0, 0, 0, 0], [0, 0, 0, 0], [0, 0, 0, 0]]).2.1
        = 12 := by
  decide

/-- C1, amended: under the triple-pass rule a Left move on the row
[2,2,2,2] yields [8,0,0,0] and adds exactly 16 (4+4+8) to the score: the
first pass merges the two pairs of 2s (adding 4+4), the second merges the
two resulting 4s (adding 8). -/
theorem claim_C1_amended :
    (move_left [[2, 2, 2, 2], [0, 0, 0, 0], [0, 0, 0, 0], [0, 0, 0, 0]]).1
      = [[8, 0, 0, 0], [0, 0, 0, 0], [0, 0, 0, 0], [0, 0, 0, 0]]
    ∧ (move_left [[2, 2, 2, 2], [0, 0, 0, 0], [0, 0, 0, 0], [0, 0, 0, 0]]).2.1 = 16
    ∧ ∀ s : Nat, ∀ running : Bool, ∀ k v : Nat,
        (move_left_event [[2, 2, 2, 2], [0, 0, 0, 0], [0, 0, 0, 0], [0, 0, 0, 0]]
          s running k v).2.1 = s + 16 := by
  refine ⟨by decide, by decide, ?_⟩
  intro s running k v
  rw [move_left_event_score]
  have h16 : (move_left [[2, 2, 2, 2], [0, 0, 0, 0], [0, 0, 0, 0], [0, 0, 0, 0]]).2.1
      = 16 := by decide
  rw [h16]

theorem claim_C1_amended_witness :
    (move_left_event [[2, 2, 2, 2], [0, 0, 0, 0], [0, 0, 0, 0], [0, 0, 0, 0]]
      5 true 0 2).2.1 = 21 := by
  have h := claim_C1_amended.2.2 5 true 0 2
  rw [h]

/-- C2: a single pass of the compact-left primitive (`move`) transforms
each row independently exactly as the spec describes: remove zeros
preserving order, scan left-to-right merging adjacent equal values into
the doubled left cell while zeroing the right cell and adding the doubled
value to the score (a merged cell never merges again in the same pass),
re-compact zeros, and pad the row with zeros. -/
theorem claim_C2 : ∀ m : Grid, move m = moveSpec m :=
  move_eq_moveSpec

theorem claim_C2_witness :
    move [[2, 0, 2, 4], [2, 2, 2, 2], [4, 4, 8, 8], [0, 0, 0, 0]]
      = moveSpec [[2, 0, 2, 4], [2, 2, 2, 2], [4, 4, 8, 8], [0, 0, 0, 0]] :=
  claim_C2 [[2, 0, 2, 4], [2, 2, 2, 2], [4, 4, 8, 8], [0, 0, 0, 0]]

/-- C3: each directional move reduces to the compact-left primitive via
the documented transform: Left is the triple pass directly; Up rotates by
90°, applies the same triple pass as Left, and rotates back by 270° (and
the 270° rotation exactly undoes the 90° one on well-formed grids); Down
uses 270° / 90°; Right uses horizontal flip both ways. -/
theorem claim_C3 (g : Grid) (hW : WF g) :
    move_left g = movePasses 3 g
    ∧ move_up g
        = (rotate_grid (move_left (rotate_grid g 1)).1 3,
           (move_left (rotate_grid g 1)).2)
    ∧ rotate_grid (rotate_grid g 1) 3 = g
    ∧ move_down g
        = (rotate_grid (move_left (rotate_grid g 3)).1 1,
           (move_left (rotate_grid g 3)).2)
    ∧ rotate_grid (rotate_grid g 3) 1 = g
    ∧ move_right g = (fliplr (move_left (fliplr g)).1, (move_left (fliplr g)).2)
    ∧ fliplr (fliplr g) = g :=
  ⟨rfl, rfl, rotate13 g hW, rfl, rotate31 g hW, rfl, fliplr_fliplr g⟩

theorem claim_C3_witness :
    WF Gdead ∧ rotate_grid (rotate_grid Gdead 1) 3 = Gdead
      ∧ fliplr (fliplr Gdead) = Gdead :=
  ⟨by decide, (claim_C3 Gdead (by decide)).2.2.1,
    (claim_C3 Gdead (by decide)).2.2.2.2.2.2⟩

/-- C4: for every well-formed grid and every direction, the `moved` flag
reported by the handler is true exactly when the grid after the operation
(with any rotation or flip already undone) differs from the grid before
it. -/
theorem claim_C4 (g : Grid) (hW : WF g) :
    ((move_left g).2.2 = true ↔ (move_left g).1 ≠ g)
    ∧ ((move_up g).2.2 = true ↔ (move_up g).1 ≠ g)
    ∧ ((move_down g).2.2 = true ↔ (move_down g).1 ≠ g)
    ∧ ((move_right g).2.2 = true ↔ (move_right g).1 ≠ g) :=
  ⟨move_left_moved_iff g, move_up_moved_iff g hW, move_down_moved_iff g hW,
    move_right_moved_iff g⟩

theorem claim_C4_witness :
    WF Gdead ∧ ((move_left Gdead).2.2 = true ↔ (move_left Gdead).1 ≠ Gdead) :=
  ⟨by decide, (claim_C4 Gdead (by decide)).1⟩

/-- C5: applying the same directional move twice in succession with no
spawn in between is idempotent: the second call returns the same grid,
adds no score, and reports `moved = false`. -/
theorem claim_C5 (g : Grid) (hW : WF g) :
    move_left ((move_left g).1) = ((move_left g).1, 0, false)
    ∧ move_up ((move_up g).1) = ((move_up g).1, 0, false)
    ∧ move_down ((move_down g).1) = ((move_down g).1, 0, false)
    ∧ move_right ((move_right g).1) = ((move_right g).1, 0, false) :=
  ⟨move_left_idem g hW, move_up_idem g hW, move_down_idem g hW,
    move_right_idem g hW⟩

theorem claim_C5_witness :
    WF Gdead
      ∧ move_left ((move_left Gdead).1) = ((move_left Gdead).1, 0, false) :=
  ⟨by decide, (claim_C5 Gdead (by decide)).1⟩

/-- C6: `can_move` is a pure function of the grid (the source only reads
it), and it returns false exactly in the spec's `Over` state: every cell
non-zero and no two horizontally or vertically adjacent cells equal.  On
the dead board it returns false, and setting any single cell of that
board to 0 makes it return true. -/
theorem claim_C6 (g : Grid) :
    (can_move g = false ↔ OverSpec g)
    ∧ can_move Gdead = false
    ∧ ∀ i j : Fin 4, can_move (setCell Gdead (i : Nat) (j : Nat) 0) = true :=
  ⟨can_move_false_iff g, by decide, by decide⟩

theorem claim_C6_witness :
    (can_move Gdead = false ↔ OverSpec Gdead) ∧ OverSpec Gdead :=
  ⟨(claim_C6 Gdead).1, (claim_C6 Gdead).1.mp (by decide)⟩

/-- C7: the score delta of one directional move equals the sum of the
values of the merged tiles created in its three passes (each merge adds
the doubled value at the moment of merge); the key handlers only ever add
this delta to the score, so the score never decreases (it is a `Nat`, so
it is always ≥ 0). -/
theorem claim_C7 (g : Grid) (s : Nat) (running : Bool) (k v : Nat) :
    ((move_left g).2.1
      = specMergedTotal g + specMergedTotal (gridPass g)
        + specMergedTotal (gridPass (gridPass g)))
    ∧ ((move_up g).2.1
      = specMergedTotal (rotate_grid g 1)
        + specMergedTotal (gridPass (rotate_grid g 1))
        + specMergedTotal (gridPass (gridPass (rotate_grid g 1))))
    ∧ ((move_down g).2.1
      = specMergedTotal (rotate_grid g 3)
        + specMergedTotal (gridPass (rotate_grid g 3))
        + specMergedTotal (gridPass (gridPass (rotate_grid g 3))))
    ∧ ((move_right g).2.1
      = specMergedTotal (fliplr g) + specMergedTotal (gridPass (fliplr g))
        + specMergedTotal (gridPass (gridPass (fliplr g))))
    ∧ (move_left_event g s running k v).2.1 = s + (move_left g).2.1
    ∧ (move_up_event g s running k v).2.1 = s + (move_up g).2.1
    ∧ (move_down_event g s running k v).2.1 = s + (move_down g).2.1
    ∧ (move_right_event g s running k v).2.1 = s + (move_right g).2.1
    ∧ s ≤ (move_left_event g s running k v).2.1
    ∧ s ≤ (move_up_event g s running k v).2.1
    ∧ s ≤ (move_down_event g s running k v).2.1
    ∧ s ≤ (move_right_event g s running k v).2.1 := by
  refine ⟨movePasses_delta g, movePasses_delta _, movePasses_delta _,
    movePasses_delta _,
    move_left_event_score g s running k v, move_up_event_score g s running k v,
    move_down_event_score g s running k v, move_right_event_score g s running k v,
    ?_, ?_, ?_, ?_⟩
  · rw [move_left_event_score]
    exact Nat.le_add_right s _
  · rw [move_up_event_score]
    exact Nat.le_add_right s _
  · rw [move_down_event_score]
    exact Nat.le_add_right s _
  · rw [move_right_event_score]
    exact Nat.le_add_right s _

theorem claim_C7_witness :
    (move_left [[2, 2, 2, 2], [0, 0, 0, 0], [0, 0, 0, 0], [0, 0, 0, 0]]).2.1
      = specMergedTotal [[2, 2, 2, 2], [0, 0, 0, 0], [0, 0, 0, 0], [0, 0, 0, 0]]
        + specMergedTotal (gridPass [[2, 2, 2, 2], [0, 0, 0, 0], [0, 0, 0, 0], [0, 0, 0, 0]])
        + specMergedTotal
            (gridPass (gridPass [[2, 2, 2, 2], [0, 0, 0, 0], [0, 0, 0, 0], [0, 0, 0, 0]])) :=
  (claim_C7 [[2, 2, 2, 2], [0, 0, 0, 0], [0, 0, 0, 0], [0, 0, 0, 0]] 0 true 0 2).1

/-- C8: whenever an empty cell exists, `add_random_tile` writes the
spawned value (2 or 4) into one cell chosen among the currently empty
cells, raising the occupied-cell count by exactly one and leaving every
other cell unchanged; with no empty cell it is a silent no-op. -/
theorem claim_C8 (g : Grid) (k v : Nat) (hW : WF g) (hv : v = 2 ∨ v = 4) :
    (empty_cells g ≠ [] →
      ∃ i j, i < 4 ∧ j < 4 ∧ cell g i j = 0 ∧
        add_random_tile g k v = setCell g i j v ∧
        occupiedCount (add_random_tile g k v) = occupiedCount g + 1 ∧
        cell (add_random_tile g k v) i j = v ∧
        ∀ a b, ¬ (a = i ∧ b = j) → cell (add_random_tile g k v) a b = cell g a b)
    ∧ (empty_cells g = [] → add_random_tile g k v = g) := by
  constructor
  · intro hne
    exact add_random_tile_spawn g k v hW (by rcases hv with rfl | rfl <;> omega) hne
  · exact add_random_tile_full g k v

theorem claim_C8_witness :
    WF Gzero ∧ (2 = 2 ∨ 2 = 4) ∧ empty_cells Gzero ≠ []
    ∧ ∃ i j, i < 4 ∧ j < 4 ∧ cell Gzero i j = 0 ∧
        add_random_tile Gzero 0 2 = setCell Gzero i j 2 ∧
        occupiedCount (add_random_tile Gzero 0 2) = occupiedCount Gzero + 1 ∧
        cell (add_random_tile Gzero 0 2) i j = 2 ∧
        ∀ a b, ¬ (a = i ∧ b = j) →
          cell (add_random_tile Gzero 0 2) a b = cell Gzero a b :=
  ⟨by decide, Or.inl rfl, by decide,
    (claim_C8 Gzero 0 2 (by decide) (Or.inl rfl)).1 (by decide)⟩

/-- C9: the data-model invariant — every non-zero cell a power of two,
and at most 16 occupied cells — holds for the freshly constructed grid
(zeros plus two spawned seed tiles) and is preserved by each directional
move and by each tile spawn (well-formedness of the 4×4 shape is
preserved as well, which is what bounds the occupied cells by 16). -/
theorem claim_C9 (g : Grid) (k v k1 v1 k2 v2 : Nat) (hW : WF g)
    (hp : PowTwoInv g) (hv : v = 2 ∨ v = 4) (hv1 : v1 = 2 ∨ v1 = 4)
    (hv2 : v2 = 2 ∨ v2 = 4) :
    (PowTwoInv (init_grid k1 v1 k2 v2) ∧ WF (init_grid k1 v1 k2 v2)
      ∧ occupiedCount (init_grid k1 v1 k2 v2) ≤ 16)
    ∧ (PowTwoInv ((move_left g).1) ∧ WF ((move_left g).1)
      ∧ occupiedCount ((move_left g).1) ≤ 16)
    ∧ (PowTwoInv ((move_up g).1) ∧ WF ((move_up g).1)
      ∧ occupiedCount ((move_up g).1) ≤ 16)
    ∧ (PowTwoInv ((move_down g).1) ∧ WF ((move_down g).1)
      ∧ occupiedCount ((move_down g).1) ≤ 16)
    ∧ (PowTwoInv ((move_right g).1) ∧ WF ((move_right g).1)
      ∧ occupiedCount ((move_right g).1) ≤ 16)
    ∧ (PowTwoInv (add_random_tile g k v) ∧ WF (add_random_tile g k v)
      ∧ occupiedCount (add_random_tile g k v) ≤ 16) := by
  refine ⟨⟨PowTwoInv_init_grid k1 v1 k2 v2 hv1 hv2, WF_init_grid k1 v1 k2 v2,
      occupied_le_16 _ (WF_init_grid k1 v1 k2 v2)⟩,
    ⟨PowTwoInv_move_left g hp, WF_move_left g hW,
      occupied_le_16 _ (WF_move_left g hW)⟩,
    ⟨PowTwoInv_move_up g hW hp, WF_move_up g hW,
      occupied_le_16 _ (WF_move_up g hW)⟩,
    ⟨PowTwoInv_move_down g hW hp, WF_move_down g hW,
      occupied_le_16 _ (WF_move_down g hW)⟩,
    ⟨PowTwoInv_move_right g hp, WF_move_right g hW,
      occupied_le_16 _ (WF_move_right g hW)⟩,
    ⟨PowTwoInv_add_random_tile g k v hW hp hv, WF_add_random_tile g k v hW,
      occupied_le_16 _ (WF_add_random_tile g k v hW)⟩⟩

theorem claim_C9_witness :
    WF Gdead ∧ PowTwoInv Gdead
    ∧ PowTwoInv (init_grid 0 2 0 4) ∧ occupiedCount (init_grid 0 2 0 4) ≤ 16
    ∧ PowTwoInv ((move_left Gdead).1)
    ∧ occupiedCount (add_random_tile Gdead 0 2) ≤ 16 := by
  have hP : PowTwoInv Gdead := by
    intro r hr x hx hxne
    simp only [Gdead, List.mem_cons, List.not_mem_nil, or_false] at hr
    rcases hr with rfl | rfl | rfl | rfl <;>
      simp only [List.mem_cons, List.not_mem_nil, or_false] at hx <;>
      rcases hx with rfl | rfl | rfl | rfl <;>
      first
        | exact ⟨1, rfl⟩
        | exact ⟨2, rfl⟩
  obtain ⟨⟨hi1, hi2, hi3⟩, ⟨hl1, hl2, hl3⟩, hup, hdown, hright, ⟨hs1, hs2, hs3⟩⟩ :=
    claim_C9 Gdead 0 2 0 2 0 4 (by decide) hP (Or.inl rfl) (Or.inl rfl) (Or.inr rfl)
  exact ⟨by decide, hP, hi1, hi3, hl1, hs3⟩

/-- C10: if a directional move reports `moved = false`, the engine state
is completely unchanged: the triple pass leaves the grid equal to its
original-orientation value with zero score delta, and the key handler —
which only spawns a tile when `moved` is true — returns the grid, score
and running flag exactly as they were. -/
theorem claim_C10 (g : Grid) (s : Nat) (running : Bool) (k v : Nat) (hW : WF g) :
    ((move_left g).2.2 = false →
      move_left g = (g, 0, false)
        ∧ move_left_event g s running k v = (g, s, running))
    ∧ ((move_up g).2.2 = false →
      move_up g = (g, 0, false)
        ∧ move_up_event g s running k v = (g, s, running))
    ∧ ((move_down g).2.2 = false →
      move_down g = (g, 0, false)
        ∧ move_down_event g s running k v = (g, s, running))
    ∧ ((move_right g).2.2 = false →
      move_right g = (g, 0, false)
        ∧ move_right_event g s running k v = (g, s, running)) := by
  refine ⟨fun h => ⟨move_left_unmoved g h, move_left_event_unmoved g s running k v h⟩,
    fun h => ⟨move_up_unmoved g hW h, move_up_event_unmoved g s running k v hW h⟩,
    fun h => ⟨move_down_unmoved g hW h, move_down_event_unmoved g s running k v hW h⟩,
    fun h => ⟨move_right_unmoved g h, move_right_event_unmoved g s running k v h⟩⟩

theorem claim_C10_witness :
    WF Gdead ∧ (move_left Gdead).2.2 = false
    ∧ move_left_event Gdead 5 true 0 2 = (Gdead, 5, true) := by
  have h := (claim_C10 Gdead 5 true 0 2 (by decide)).1 (by decide)
  exact ⟨by decide, by decide, h.2⟩

example : moveRow [2, 0, 2, 4] = ([4, 4, 0, 0], 4) := by decide
example : (move_left [[2, 2, 2, 2], [0, 0, 0, 0], [0, 0, 0, 0], [0, 0, 0, 0]]).1
    = [[8, 0, 0, 0], [0, 0, 0, 0], [0, 0, 0, 0], [0, 0, 0, 0]] := by decide
example : (move_left [[2, 2, 2, 2], [0, 0, 0, 0], [0, 0, 0, 0], [0, 0, 0, 0]]).2.1
    = 16 := by decide
example :
    rotate_grid [[1, 2, 3, 4], [5, 6, 7, 8], [9, 10, 11, 12], [13, 14, 15, 16]] 1
    = [[4, 8, 12, 16], [3, 7, 11, 15], [2, 6, 10, 14], [1, 5, 9, 13]] := by decide
example : can_move [[2, 4, 2, 4], [4, 2, 4, 2], [2, 4, 2, 4], [4, 2, 4, 2]] = false := by
  decide
example : can_move [[0, 4, 2, 4], [4, 2, 4, 2], [2, 4, 2, 4], [4, 2, 4, 2]] = true := by
  decide
example : mergeScanSpec [2, 2, 2, 2] = ([4, 0, 4, 0], 8) := by decide
example : moveRowSpec [2, 0, 2, 4] = ([4, 4, 0, 0], 4) := by decide

end Game2048
